import Mathlib

/-!
Shallow embedding of `mygeotab/api.py` (the MyGeotab API client wrapper).

Python dictionaries are modelled as ordered association lists
(`List (String × Value)`), matching Python's insertion-ordered dicts.
JSON-like Python values are modelled by the inductive type `Value`.
Machine-level concerns (HTTP, TLS sockets) are abstracted: the remote
server is an oracle, a list of `QueryOutcome`s consumed positionally by
successive `_query` round trips.
-/

/-- JSON-like Python value: None, str, int, bool, dict, list.
This models the values that flow through `api.py`. -/
inductive Value where
  | null : Value
  | str (s : String) : Value
  | num (n : Int) : Value
  | bool (b : Bool) : Value
  | dict (entries : List (String × Value)) : Value
  | list (elems : List Value) : Value

mutual

/-- Decidable equality on `Value` (the automatic derivation does not handle
the nested occurrence in `List (String × Value)`). -/
def Value.decEq : (a b : Value) → Decidable (a = b)
  | .null, .null => isTrue rfl
  | .null, .str _ => isFalse (fun h => Value.noConfusion h)
  | .null, .num _ => isFalse (fun h => Value.noConfusion h)
  | .null, .bool _ => isFalse (fun h => Value.noConfusion h)
  | .null, .dict _ => isFalse (fun h => Value.noConfusion h)
  | .null, .list _ => isFalse (fun h => Value.noConfusion h)
  | .str _, .null => isFalse (fun h => Value.noConfusion h)
  | .str a, .str b =>
      if h : a = b then isTrue (h ▸ rfl) else isFalse (fun hh => h (Value.str.inj hh))
  | .str _, .num _ => isFalse (fun h => Value.noConfusion h)
  | .str _, .bool _ => isFalse (fun h => Value.noConfusion h)
  | .str _, .dict _ => isFalse (fun h => Value.noConfusion h)
  | .str _, .list _ => isFalse (fun h => Value.noConfusion h)
  | .num _, .null => isFalse (fun h => Value.noConfusion h)
  | .num _, .str _ => isFalse (fun h => Value.noConfusion h)
  | .num a, .num b =>
      if h : a = b then isTrue (h ▸ rfl) else isFalse (fun hh => h (Value.num.inj hh))
  | .num _, .bool _ => isFalse (fun h => Value.noConfusion h)
  | .num _, .dict _ => isFalse (fun h => Value.noConfusion h)
  | .num _, .list _ => isFalse (fun h => Value.noConfusion h)
  | .bool _, .null => isFalse (fun h => Value.noConfusion h)
  | .bool _, .str _ => isFalse (fun h => Value.noConfusion h)
  | .bool _, .num _ => isFalse (fun h => Value.noConfusion h)
  | .bool a, .bool b =>
      if h : a = b then isTrue (h ▸ rfl) else isFalse (fun hh => h (Value.bool.inj hh))
  | .bool _, .dict _ => isFalse (fun h => Value.noConfusion h)
  | .bool _, .list _ => isFalse (fun h => Value.noConfusion h)
  | .dict _, .null => isFalse (fun h => Value.noConfusion h)
  | .dict _, .str _ => isFalse (fun h => Value.noConfusion h)
  | .dict _, .num _ => isFalse (fun h => Value.noConfusion h)
  | .dict _, .bool _ => isFalse (fun h => Value.noConfusion h)
  | .dict a, .dict b =>
      match Value.decEqEntries a b with
      | isTrue h => isTrue (h ▸ rfl)
      | isFalse h => isFalse (fun hh => h (Value.dict.inj hh))
  | .dict _, .list _ => isFalse (fun h => Value.noConfusion h)
  | .list _, .null => isFalse (fun h => Value.noConfusion h)
  | .list _, .str _ => isFalse (fun h => Value.noConfusion h)
  | .list _, .num _ => isFalse (fun h => Value.noConfusion h)
  | .list _, .bool _ => isFalse (fun h => Value.noConfusion h)
  | .list _, .dict _ => isFalse (fun h => Value.noConfusion h)
  | .list a, .list b =>
      match Value.decEqValues a b with
      | isTrue h => isTrue (h ▸ rfl)
      | isFalse h => isFalse (fun hh => h (Value.list.inj hh))

/-- Decidable equality on dict entry lists. -/
def Value.decEqEntries : (a b : List (String × Value)) → Decidable (a = b)
  | [], [] => isTrue rfl
  | [], _ :: _ => isFalse (fun h => List.noConfusion h)
  | _ :: _, [] => isFalse (fun h => List.noConfusion h)
  | (k1, v1) :: t1, (k2, v2) :: t2 =>
      if hk : k1 = k2 then
        match Value.decEq v1 v2 with
        | isTrue hv =>
          match Value.decEqEntries t1 t2 with
          | isTrue ht => isTrue (by rw [hk, hv, ht])
          | isFalse ht => isFalse (fun h => ht (List.cons.inj h).2)
        | isFalse hv => isFalse (fun h => hv (congrArg Prod.snd (List.cons.inj h).1))
      else isFalse (fun h => hk (congrArg Prod.fst (List.cons.inj h).1))

/-- Decidable equality on value lists. -/
def Value.decEqValues : (a b : List Value) → Decidable (a = b)
  | [], [] => isTrue rfl
  | [], _ :: _ => isFalse (fun h => List.noConfusion h)
  | _ :: _, [] => isFalse (fun h => List.noConfusion h)
  | v1 :: t1, v2 :: t2 =>
      match Value.decEq v1 v2 with
      | isTrue hv =>
        match Value.decEqValues t1 t2 with
        | isTrue ht => isTrue (by rw [hv, ht])
        | isFalse ht => isFalse (fun h => ht (List.cons.inj h).2)
      | isFalse hv => isFalse (fun h => hv (List.cons.inj h).1)

end

instance : DecidableEq Value := Value.decEq

/-- Python truthiness (`if data:`): None, "", 0, False, {}, [] are falsy. -/
def pyTruthy : Value → Bool
  | Value.null => false
  | Value.str s => s ≠ ""
  | Value.num n => n ≠ 0
  | Value.bool b => b
  | Value.dict d => ¬ d.isEmpty
  | Value.list l => ¬ l.isEmpty

/-- Python truthiness of an optional string field (None and "" are falsy). -/
def optTruthy : Option String → Bool
  | none => false
  | some s => s ≠ ""

/-- Model of `d[k]`-style lookup on a dict: value at the first matching key. -/
def pyget? : List (String × Value) → String → Option Value
  | [], _ => none
  | e :: t, k => if e.1 = k then some e.2 else pyget? t k

/-- Model of `k in d` for a dict. -/
def hasKey : List (String × Value) → String → Bool
  | [], _ => false
  | e :: t, k => if e.1 = k then true else hasKey t k

/-- Replace the value at every entry whose key is `k` (helper for `pyinsert`). -/
def setKey : List (String × Value) → String → Value → List (String × Value)
  | [], _, _ => []
  | e :: t, k, v => (if e.1 = k then (k, v) else e) :: setKey t k v

/-- Model of `d[k] = v`: update in place when the key exists, else append
(Python dicts preserve insertion order and update position on reassignment). -/
def pyinsert (d : List (String × Value)) (k : String) (v : Value) : List (String × Value) :=
  if hasKey d k then setKey d k v else d ++ [(k, v)]

/-- Model of `del d[k]`. -/
def pydel : List (String × Value) → String → List (String × Value)
  | [], _ => []
  | e :: t, k => if e.1 = k then pydel t k else e :: pydel t k

/-- Model of `d.update(other)`: assign each of `other`'s items in order. -/
def pyupdate (d other : List (String × Value)) : List (String × Value) :=
  other.foldl (fun acc e => pyinsert acc e.1 e.2) d

/-- Python's `\w` for the ASCII range: letters, digits and underscore
(the keys handled by `process_parameters` are ASCII identifiers). -/
def isWordChar (c : Char) : Bool :=
  c.isAlphanum || c = '_'

/-- Model of `re.sub(r"_(\w)", lambda m: m.group(1).upper(), s)` on the
character list: leftmost non-overlapping matches of an underscore followed
by a word character are replaced by the uppercased word character. -/
def camelSub : List Char → List Char
  | [] => []
  | '_' :: c :: rest =>
      if isWordChar c then c.toUpper :: camelSub rest
      else '_' :: camelSub (c :: rest)
  | c :: rest => c :: camelSub rest

/-- The key transformation applied by `process_parameters` to each key. -/
def camelCase (s : String) : String :=
  (camelSub s.toList).asString

/-- The loop of `process_parameters` (source lines 508-515): for each
original entry (already paired with its normalized value), assign the
camel-cased key with the normalized value into the working copy, then
delete the original key when the name changed. -/
def ppLoop : List (String × Value) → List (String × Value) → List (String × Value)
  | [], params => params
  | (k, v2) :: rest, params =>
      let p1 := pyinsert params (camelCase k) v2
      ppLoop rest (if camelCase k = k then p1 else pydel p1 k)

mutual

/-- Normalization of a single value inside `process_parameters`:
`if isinstance(value, dict): value = process_parameters(value)`. -/
def normValue : Value → Value
  | Value.dict d => Value.dict (process_parameters d)
  | v => v

/-- Entry-wise normalization of a dict's values, preserving keys and order
(the per-iteration `value` computed by the source loop, for every entry;
the recursive normalization of a value never reads the working copy, so
computing it entry-wise first is behaviour-preserving). -/
def normEntries : List (String × Value) → List (String × Value)
  | [] => []
  | (k, v) :: rest => (k, normValue v) :: normEntries rest

/-- Model of `process_parameters` (source lines 497-516): empty input maps
to an empty dict; otherwise a shallow copy of the input is rewritten key by
key (`ppLoop`), camel-casing each key and recursively normalizing dict
values (the nonempty case feeds the loop with every entry's normalized
value, which is what the source loop computes per iteration). -/
def process_parameters (parameters : List (String × Value)) : List (String × Value) :=
  match parameters with
  | [] => []
  | (k, v) :: rest => ppLoop ((k, normValue v) :: normEntries rest) ((k, v) :: rest)

end

/-! URL resolution: `get_api_url` (source lines 519-528) uses
`urllib.parse.urlparse`; only the `netloc` and `path` components matter
here, so the model implements scheme splitting, netloc extraction and
query/fragment stripping exactly as CPython's `urlsplit` does for them. -/

/-- Characters allowed in a URL scheme (CPython `scheme_chars`):
ASCII letters, digits, plus, minus, dot. -/
def isSchemeChar (c : Char) : Bool :=
  c.isAlpha || c.isDigit || c = '+' || c = '-' || c = '.'

/-- Split a character list at its first colon: `some (before, after)`,
or `none` when there is no colon. -/
def findColonSplit : List Char → Option (List Char × List Char)
  | [] => none
  | c :: rest =>
      if c = ':' then some ([], rest)
      else (findColonSplit rest).map (fun p => (c :: p.1, p.2))

/-- Drop a leading `scheme:` when the part before the first colon is a
nonempty run of scheme characters starting with an ASCII letter (CPython
`urlsplit` scheme handling: `i > 0 and url[0].isascii() and
url[0].isalpha()` followed by the `scheme_chars` scan; so a digit-first
candidate such as `127.0.0.1:8080` is never treated as a scheme. The
lowercasing of the scheme is irrelevant because the scheme is
discarded). -/
def splitSchemeL (cs : List Char) : List Char :=
  match findColonSplit cs with
  | some (pre, post) =>
      match pre with
      | [] => cs
      | c :: _ => if c.isAlpha ∧ pre.all isSchemeChar then post else cs
  | none => cs

/-- Stop characters for the netloc component. -/
def isNetlocDelim (c : Char) : Bool :=
  c = '/' || c = '?' || c = '#'

/-- The path component of the remainder: everything before the first `#`
(fragment), then everything before the first `?` (query). -/
def pathPart (cs : List Char) : List Char :=
  (cs.takeWhile (fun c => c ≠ '#')).takeWhile (fun c => c ≠ '?')

/-- The `(netloc, path)` components of `urlparse`:
after scheme removal, a leading `//` introduces the netloc, which extends
to the next `/`, `?` or `#`; the rest (query/fragment stripped) is the path. -/
def netlocPath (cs : List Char) : List Char × List Char :=
  let rest := splitSchemeL cs
  if rest.take 2 = ['/', '/'] then
    let after := rest.drop 2
    (after.takeWhile (fun c => !isNetlocDelim c),
     pathPart (after.dropWhile (fun c => !isNetlocDelim c)))
  else ([], pathPart rest)

/-- The `base_url` of `get_api_url`: `parsed.netloc if parsed.netloc else
parsed.path`. -/
def api_base (server : String) : String :=
  let p := netlocPath server.toList
  (if p.1 ≠ [] then p.1 else p.2).asString

/-- Model of `get_api_url` (source lines 519-528). The source line
`base_url.replace("/", "")` discards its result (Python strings are
immutable and the return value is not assigned), so it has no effect and
is omitted here. -/
def get_api_url (server : String) : String :=
  "https://" ++ api_base server ++ "/apiv1"

/-- Model of Python substring containment `needle in haystack` via a
prefix check at every suffix. -/
def isPrefixList : List Char → List Char → Bool
  | [], _ => true
  | _ :: _, [] => false
  | a :: as, b :: bs => a = b && isPrefixList as bs

/-- Substring containment on character lists. -/
def containsSub (needle : List Char) : List Char → Bool
  | [] => needle.isEmpty
  | c :: t => isPrefixList needle (c :: t) || containsSub needle t

/-- Python `needle in haystack` for strings. -/
def strContains (haystack needle : String) : Bool :=
  containsSub needle.toList haystack.toList

/-- The MyGeotab `Credentials` value object (source lines 366-404). -/
structure Credentials where
  username : String
  session_id : Option String
  database : Option String
  server : Option String
  password : Option String
deriving DecidableEq

/-- Model of `Credentials.get_param` (source lines 398-404): the wire-level
credential dict `{userName, sessionId, database}`; the password is not part
of this representation. -/
def Credentials.get_param (c : Credentials) : List (String × Value) :=
  [("userName", Value.str c.username),
   ("sessionId", match c.session_id with | none => Value.null | some s => Value.str s),
   ("database", match c.database with | none => Value.null | some s => Value.str s)]

/-- Model of the `API._server` property (source lines 65-69): a falsy
server field resolves to the default host. (The source also writes the
default back into `self.credentials.server`; the write is observationally
a caching of this same resolution.) -/
def resolved_server (c : Credentials) : String :=
  match c.server with
  | none => "my.geotab.com"
  | some s => if s = "" then "my.geotab.com" else s

/-- Model of `API._is_verify_ssl` (source lines 71-78):
`not any(s in get_api_url(self._server) for s in ["127.0.0.1", "localhost"])`. -/
def _is_verify_ssl (c : Credentials) : Bool :=
  !(strContains (get_api_url (resolved_server c)) "127.0.0.1"
    || strContains (get_api_url (resolved_server c)) "localhost")

/-! Response processing and the call/authentication orchestrator. -/

/-- Model of Python `"key" in container` (source line 466/468): key test
for dicts, element equality for lists (a string equals only an equal
string value), substring test for strings, and `none` for the TypeError
Python raises when the operand is not a container. -/
def pyIn (needle : String) : Value → Option Bool
  | Value.dict d => some (hasKey d needle)
  | Value.list l => some (l.any (fun v => match v with | Value.str s => s = needle | _ => false))
  | Value.str s => some (containsSub needle.toList s.toList)
  | _ => none

/-- Outcome of `_process`: a returned value, a raised
`MyGeotabException(data["error"])` carrying the raw error payload, or a
Python `TypeError` from applying `in`/indexing to a non-container. -/
inductive ProcResult where
  | ok (v : Value)
  | raised (err : Value)
  | typeError
deriving DecidableEq

/-- Model of `_process` (source lines 458-470): falsy documents are
returned unchanged; an `error` key raises; otherwise a `result` key is
unwrapped; otherwise the document is returned unchanged. For truthy
non-dict documents the `in` test or the subscript raises TypeError. -/
def _process (data : Value) : ProcResult :=
  if pyTruthy data then
    match pyIn "error" data with
    | none => ProcResult.typeError
    | some true =>
        match data with
        | Value.dict d => ProcResult.raised ((pyget? d "error").getD Value.null)
        | _ => ProcResult.typeError
    | some false =>
        match pyIn "result" data with
        | none => ProcResult.typeError
        | some true =>
            match data with
            | Value.dict d => ProcResult.ok ((pyget? d "result").getD Value.null)
            | _ => ProcResult.typeError
        | some false => ProcResult.ok data
  else ProcResult.ok data

/-- Modelled from the spec: `mygeotab/exceptions.py` is not under `src/`;
per spec section 7 the remote error (`MyGeotabException`) is built from the
`error` payload's `name` and `message`, and the authentication failure
(`AuthenticationException`) carries username, database and server for
diagnostics, never the password. This structure models the remote error's
classification fields. -/
structure MyGeotabException where
  name : Value
  message : Value
deriving DecidableEq

/-- Modelled from the spec: construction of the remote error from the raw
`error` payload (name and message keys). -/
def mkRemoteError (err : Value) : MyGeotabException :=
  match err with
  | Value.dict d => ⟨(pyget? d "name").getD Value.null, (pyget? d "message").getD Value.null⟩
  | _ => ⟨Value.null, Value.null⟩

/-- Mutable state of an `API` object: its credentials and the private
reauthorization counter (source lines 59-63). -/
structure ApiState where
  credentials : Credentials
  reauthorize_count : Nat
deriving DecidableEq

/-- One remote round trip's outcome, as seen after `_process`: either a
result value (possibly null) or a raised `MyGeotabException` with the
server-assigned classification `name` and a message. The remote server is
an oracle: a list of such outcomes consumed positionally by successive
`_query` calls. -/
inductive QueryOutcome where
  | ok (result : Value)
  | remoteErr (name : String) (message : String)
deriving DecidableEq

/-- Errors that can escape `API.call`/`API.authenticate` in the model. -/
inductive Exc where
  | authExc (username : String) (database : Option String) (server : Option String)
  | remote (name : String) (message : String)
  | badPayload
  | noOracle
  | fuelOut
deriving DecidableEq

/-- A logged wire request: the method name and the parameter dict handed to
`_query`. -/
abbrev Request := String × List (String × Value)

/-- Result of a modelled `authenticate` run. -/
inductive AuthOutcome where
  | replaced
  | unchanged
  | failed (e : Exc)
deriving DecidableEq

/-- Return bundle of the modelled `authenticate`: outcome, resulting API
state, remaining oracle, and the wire requests made. -/
structure AuthRet where
  outcome : AuthOutcome
  state : ApiState
  trace : List QueryOutcome
  log : List Request
deriving DecidableEq

/-- Convert an optional string field to the Value sent on the wire. -/
def optVal : Option String → Value
  | none => Value.null
  | some s => Value.str s

/-- Read back an optional string field from a wire value (`null` or a
string); other shapes are rejected as a malformed payload. -/
def optOfVal : Value → Option (Option String)
  | Value.null => some none
  | Value.str s => some (some s)
  | _ => none

/-- Parse a truthy `Authenticate` result (source lines 204-211):
`result["path"]` and `result["credentials"]` with `userName`, `sessionId`,
`database`. Returns `(path, userName, sessionId, database)`, or `none` for
a malformed payload (Python would raise KeyError/TypeError there). -/
def parseAuth (result : Value) : Option (String × String × Option String × Option String) :=
  match result with
  | Value.dict d =>
      match pyget? d "path", pyget? d "credentials" with
      | some (Value.str path), some (Value.dict c) =>
          match pyget? c "userName", pyget? c "sessionId", pyget? c "database" with
          | some (Value.str u), some sid, some db =>
              match optOfVal sid, optOfVal db with
              | some sid2, some db2 => some (path, u, sid2, db2)
              | _, _ => none
          | _, _, _ => none
      | _, _ => none
  | _ => none

/-- The authentication payload built by `authenticate` (source lines
198-201): `{database, userName, password, global}`. -/
def authData (c : Credentials) : List (String × Value) :=
  [("database", optVal c.database), ("userName", Value.str c.username),
   ("password", optVal c.password), ("global", Value.bool true)]

/-- Model of `API.authenticate` (source lines 188-219, with
`is_global=True` as called from `call`): send the auth payload; on a
truthy result replace the credentials wholesale with
`Credentials(userName, sessionId, database, server)` — note the
constructor's `password` parameter is left at its default `None` — where
the server keeps its old value only for the `"ThisServer"` sentinel; on a
falsy result return with no change; on an `InvalidUserException` remote
error raise `AuthenticationException` with the current username, database
and server; propagate any other remote error. -/
def authenticate (st : ApiState) (trace : List QueryOutcome) : AuthRet :=
  let lg : List Request := [("Authenticate", authData st.credentials)]
  match trace with
  | [] => ⟨AuthOutcome.failed Exc.noOracle, st, [], lg⟩
  | o :: rest =>
      match o with
      | QueryOutcome.ok result =>
          if pyTruthy result then
            match parseAuth result with
            | some (path, u, sid, db) =>
                let server := if path ≠ "ThisServer" then some path else st.credentials.server
                ⟨AuthOutcome.replaced,
                 { st with credentials := ⟨u, sid, db, server, none⟩ }, rest, lg⟩
            | none => ⟨AuthOutcome.failed Exc.badPayload, st, rest, lg⟩
          else ⟨AuthOutcome.unchanged, st, rest, lg⟩
      | QueryOutcome.remoteErr name _msg =>
          if name = "InvalidUserException" then
            ⟨AuthOutcome.failed
              (Exc.authExc st.credentials.username st.credentials.database st.credentials.server),
             st, rest, lg⟩
          else ⟨AuthOutcome.failed (Exc.remote name _msg), st, rest, lg⟩

/-- Decidable equality for `Except` results (not provided by core). -/
instance {ε α : Type} [DecidableEq ε] [DecidableEq α] : DecidableEq (Except ε α)
  | Except.error a, Except.error b =>
      if h : a = b then isTrue (by rw [h])
      else isFalse (fun hh => h (Except.error.inj hh))
  | Except.error _, Except.ok _ => isFalse (fun h => Except.noConfusion h)
  | Except.ok _, Except.error _ => isFalse (fun h => Except.noConfusion h)
  | Except.ok a, Except.ok b =>
      if h : a = b then isTrue (by rw [h])
      else isFalse (fun hh => h (Except.ok.inj hh))

/-- Return bundle of the modelled `call`: result-or-exception, resulting
API state, remaining oracle, and the wire requests made. -/
structure CallRet where
  result : Except Exc Value
  state : ApiState
  trace : List QueryOutcome
  log : List Request
deriving DecidableEq

/-- The wire parameters of a call (source lines 93 and 96-97): normalized
caller parameters, with the session credential injected when the caller
did not supply one and a session id is present. -/
def wireParams (st : ApiState) (parameters : List (String × Value)) : List (String × Value) :=
  let params := process_parameters parameters
  if !(hasKey params "credentials") && optTruthy st.credentials.session_id then
    pyinsert params "credentials" (Value.dict st.credentials.get_param)
  else params

/-- Model of `API.call` (source lines 80-114), with explicit fuel for the
recursive retry (the recursion is bounded: the reauthorization counter is
incremented before the only recursive call and is only reset on success,
so fuel 2 always suffices from a zero counter).

Per step: normalize parameters; authenticate first when no session id is
stored; inject the session credential; perform the query. On a result the
reauthorization counter is reset to zero when the result is not None. On
an `InvalidUserException` remote error: when the counter is zero and a
password is (truthily) present, increment the counter, authenticate, and
re-issue the same call with the same caller parameters; otherwise raise
`AuthenticationException` with the current username, database and server.
Other remote errors propagate. -/
def callFuel : Nat → ApiState → String → List (String × Value) → List QueryOutcome → CallRet
  | 0, st, _method, _parameters, trace => ⟨Except.error Exc.fuelOut, st, trace, []⟩
  | Nat.succ n, st, method, parameters, trace =>
      let pre : AuthRet :=
        if optTruthy st.credentials.session_id then ⟨AuthOutcome.unchanged, st, trace, []⟩
        else authenticate st trace
      match pre.outcome with
      | AuthOutcome.failed e => ⟨Except.error e, pre.state, pre.trace, pre.log⟩
      | _ =>
        let st1 := pre.state
        let params := wireParams st1 parameters
        match pre.trace with
        | [] => ⟨Except.error Exc.noOracle, st1, [], pre.log ++ [(method, params)]⟩
        | o :: rest =>
            let lg := pre.log ++ [(method, params)]
            match o with
            | QueryOutcome.ok result =>
                let st2 := match result with
                  | Value.null => st1
                  | _ => { st1 with reauthorize_count := 0 }
                ⟨Except.ok result, st2, rest, lg⟩
            | QueryOutcome.remoteErr name msg =>
                if name = "InvalidUserException" then
                  if st1.reauthorize_count = 0 && optTruthy st1.credentials.password then
                    let st3 := { st1 with reauthorize_count := st1.reauthorize_count + 1 }
                    let a := authenticate st3 rest
                    match a.outcome with
                    | AuthOutcome.failed e => ⟨Except.error e, a.state, a.trace, lg ++ a.log⟩
                    | _ =>
                        let r := callFuel n a.state method parameters a.trace
                        ⟨r.result, r.state, r.trace, lg ++ a.log ++ r.log⟩
                  else
                    ⟨Except.error
                      (Exc.authExc st1.credentials.username st1.credentials.database
                        st1.credentials.server), st1, rest, lg⟩
                else ⟨Except.error (Exc.remote name msg), st1, rest, lg⟩

/-- The formatted parameter list built by `multi_call` (source line 127):
`[dict(method=call[0], params=call[1] if len(call) > 1 else {}) for call in calls]`.
A call tuple is modelled as its method name and optional params dict. -/
def formatCalls (calls : List (String × Option (List (String × Value)))) : List Value :=
  calls.map (fun c =>
    Value.dict [("method", Value.str c.1), ("params", Value.dict (c.2.getD []))])

/-- Model of `API.multi_call` (source lines 116-128): one delegated call to
`call` with the fixed method name and the formatted call list. -/
def multi_call (fuel : Nat) (st : ApiState)
    (calls : List (String × Option (List (String × Value))))
    (trace : List QueryOutcome) : CallRet :=
  callFuel fuel st "ExecuteMultiCall" [("calls", Value.list (formatCalls calls))] trace

/-- The caller-level parameter dict dispatched by `API.get` (source lines
130-148) to `call("Get", type_name=..., **parameters)`: lift out
`resultsLimit`, flatten a nested `search` dict into the criteria with
`parameters.update(parameters["search"])` (the source does not delete the
nested `search` key afterwards), and wrap as
`dict(search=parameters, resultsLimit=results_limit)`. Returns `none` for
the TypeError Python raises when the `search` value is not a dict. -/
def get_params (type_name : String) (parameters : List (String × Value)) :
    Option (List (String × Value)) :=
  match parameters with
  | [] => some [("type_name", Value.str type_name)]
  | _ :: _ =>
      let results_limit := (pyget? parameters "resultsLimit").getD Value.null
      let p1 := match results_limit with
        | Value.null => parameters
        | _ => pydel parameters "resultsLimit"
      match pyget? p1 "search" with
      | some (Value.dict s) =>
          some [("type_name", Value.str type_name),
                ("search", Value.dict (pyupdate p1 s)),
                ("resultsLimit", results_limit)]
      | some _ => none
      | none =>
          some [("type_name", Value.str type_name),
                ("search", Value.dict p1),
                ("resultsLimit", results_limit)]

/-- Modelled from the spec (for claim comparison only): the spec's words
"every key has each underscore removed and the following character
uppercased", read literally: each underscore is dropped and the character
after it uppercased (a trailing underscore has no following character and
is dropped). -/
def specCamelSub : List Char → List Char
  | [] => []
  | ['_'] => []
  | '_' :: c :: rest => c.toUpper :: specCamelSub rest
  | c :: rest => c :: specCamelSub rest

/-- Modelled from the spec: string version of `specCamelSub`. -/
def specCamelCase (s : String) : String :=
  (specCamelSub s.toList).asString

mutual

/-- Every key of the value, at every nesting level, is a fixed point of
the camel-case transformation (an "already camelCase" mapping). -/
def camelFixedValue : Value → Bool
  | Value.dict d => camelFixedEntries d
  | _ => true

/-- Entry-list version of `camelFixedValue`. -/
def camelFixedEntries : List (String × Value) → Bool
  | [] => true
  | (k, v) :: rest => camelCase k = k && camelFixedValue v && camelFixedEntries rest

end

mutual

/-- The dict (and every nested dict) has pairwise distinct keys, as Python
dicts always do. -/
def nodupKeysValue : Value → Bool
  | Value.dict d => nodupKeysEntries d
  | _ => true

/-- Entry-list version of `nodupKeysValue`. -/
def nodupKeysEntries : List (String × Value) → Bool
  | [] => true
  | (k, v) :: rest => !(hasKey rest k) && nodupKeysValue v && nodupKeysEntries rest

end

/-! Basic lemmas about the dict operations. -/

/-- Pairwise-distinct keys, the invariant every Python dict satisfies. -/
abbrev keysNodup (d : List (String × Value)) : Prop :=
  (d.map Prod.fst).Nodup

theorem hasKey_eq_isSome (d : List (String × Value)) (k : String) :
    hasKey d k = (pyget? d k).isSome := by
  induction d with
  | nil => rfl
  | cons e t ih => by_cases h : e.1 = k <;> simp [hasKey, pyget?, h, ih]

theorem pyget?_eq_none_of_hasKey (d : List (String × Value)) (k : String)
    (h : hasKey d k = false) : pyget? d k = none := by
  induction d with
  | nil => rfl
  | cons e t ih =>
      by_cases h1 : e.1 = k
      · simp [hasKey, h1] at h
      · simp [hasKey, h1] at h
        simp [pyget?, h1, ih h]

theorem hasKey_iff_mem (d : List (String × Value)) (k : String) :
    hasKey d k = true ↔ k ∈ d.map Prod.fst := by
  induction d with
  | nil => simp [hasKey]
  | cons e t ih =>
      by_cases h : e.1 = k
      · simp [hasKey, h]
      · simp [hasKey, h, ih]
        tauto

theorem hasKey_append (a b : List (String × Value)) (k : String) :
    hasKey (a ++ b) k = (hasKey a k || hasKey b k) := by
  induction a with
  | nil => simp [hasKey]
  | cons e t ih => by_cases h : e.1 = k <;> simp [hasKey, h, ih]

theorem pyget?_append_of_hasKey (a b : List (String × Value)) (k : String)
    (h : hasKey a k = false) : pyget? (a ++ b) k = pyget? b k := by
  induction a with
  | nil => rfl
  | cons e t ih =>
      by_cases h1 : e.1 = k
      · simp [hasKey, h1] at h
      · simp [hasKey, h1] at h
        simp [pyget?, h1, ih h]

theorem pyget?_append_single_ne (a : List (String × Value)) (ck x : String) (v : Value)
    (h : x ≠ ck) : pyget? (a ++ [(ck, v)]) x = pyget? a x := by
  induction a with
  | nil => simp [pyget?, Ne.symm h]
  | cons e t ih => by_cases h1 : e.1 = x <;> simp [pyget?, h1, ih]

theorem keys_setKey (d : List (String × Value)) (k : String) (v : Value) :
    (setKey d k v).map Prod.fst = d.map Prod.fst := by
  induction d with
  | nil => rfl
  | cons e t ih =>
      by_cases h : e.1 = k <;> simp [setKey, h, ih]

theorem hasKey_setKey (d : List (String × Value)) (k x : String) (v : Value) :
    hasKey (setKey d k v) x = hasKey d x := by
  induction d with
  | nil => rfl
  | cons e t ih =>
      by_cases h : e.1 = k
      · subst h; by_cases h2 : e.1 = x <;> simp [setKey, hasKey, h2, ih]
      · simp [setKey, h, hasKey, ih]

theorem length_setKey (d : List (String × Value)) (k : String) (v : Value) :
    (setKey d k v).length = d.length := by
  induction d with
  | nil => rfl
  | cons e t ih => by_cases h : e.1 = k <;> simp [setKey, h, ih]

theorem pyget?_setKey_self (d : List (String × Value)) (k : String) (v : Value)
    (h : hasKey d k = true) : pyget? (setKey d k v) k = some v := by
  induction d with
  | nil => simp [hasKey] at h
  | cons e t ih =>
      by_cases h1 : e.1 = k
      · simp [setKey, h1, pyget?]
      · simp [hasKey, h1] at h
        simp [setKey, h1, pyget?, ih h]

theorem pyget?_setKey_ne (d : List (String × Value)) (k x : String) (v : Value)
    (h : x ≠ k) : pyget? (setKey d k v) x = pyget? d x := by
  induction d with
  | nil => rfl
  | cons e t ih =>
      by_cases h1 : e.1 = k
      · subst h1
        simp [setKey, pyget?, Ne.symm h, ih]
      · simp [setKey, h1, pyget?, ih]

theorem setKey_of_not_hasKey (d : List (String × Value)) (k : String) (v : Value)
    (h : hasKey d k = false) : setKey d k v = d := by
  induction d with
  | nil => rfl
  | cons e t ih =>
      by_cases h1 : e.1 = k
      · simp [hasKey, h1] at h
      · simp [hasKey, h1] at h
        simp [setKey, h1, ih h]

theorem setKey_eq_self (d : List (String × Value)) (k : String) (v : Value)
    (hnd : keysNodup d) (h : pyget? d k = some v) : setKey d k v = d := by
  induction d with
  | nil => simp [pyget?] at h
  | cons e t ih =>
      simp only [keysNodup, List.map_cons, List.nodup_cons] at hnd
      by_cases h1 : e.1 = k
      · obtain ⟨e1, e2⟩ := e
        simp only at h1
        subst h1
        simp [pyget?] at h
        subst h
        have ht : hasKey t e1 = false := by
          by_contra hc
          exact hnd.1 ((hasKey_iff_mem t e1).1 (by simpa using hc))
        simp [setKey, setKey_of_not_hasKey t e1 e2 ht]
      · simp [pyget?, h1] at h
        simp [setKey, h1, ih hnd.2 h]

theorem pyget?_pydel_ne (d : List (String × Value)) (k x : String)
    (h : x ≠ k) : pyget? (pydel d k) x = pyget? d x := by
  induction d with
  | nil => rfl
  | cons e t ih =>
      by_cases h1 : e.1 = k
      · simp [pydel, h1, pyget?, Ne.symm h, ih]
      · simp [pydel, h1, pyget?, ih]

theorem hasKey_pydel_ne (d : List (String × Value)) (k x : String)
    (h : x ≠ k) : hasKey (pydel d k) x = hasKey d x := by
  rw [hasKey_eq_isSome, hasKey_eq_isSome, pyget?_pydel_ne d k x h]

theorem hasKey_pydel_imp (d : List (String × Value)) (k x : String)
    (h : hasKey (pydel d k) x = true) : hasKey d x = true := by
  induction d with
  | nil => simp [pydel, hasKey] at h
  | cons e t ih =>
      by_cases h1 : e.1 = k
      · simp [pydel, h1] at h
        by_cases h2 : e.1 = x <;> simp [hasKey, h2, ih h]
      · by_cases h2 : e.1 = x <;> simp [pydel, h1, hasKey, h2] at h ⊢
        exact ih h

theorem keysNodup_pydel (d : List (String × Value)) (k : String)
    (hnd : keysNodup d) : keysNodup (pydel d k) := by
  induction d with
  | nil => exact hnd
  | cons e t ih =>
      simp only [keysNodup, List.map_cons, List.nodup_cons] at hnd
      by_cases h : e.1 = k
      · simp [pydel, h]
        exact ih hnd.2
      · have hsub : pydel (e :: t) k = e :: pydel t k := by simp [pydel, h]
        rw [hsub]
        simp only [keysNodup, List.map_cons, List.nodup_cons]
        refine ⟨fun hc => hnd.1 ?_, ih hnd.2⟩
        exact (hasKey_iff_mem t e.1).1
          (hasKey_pydel_imp t k e.1 ((hasKey_iff_mem (pydel t k) e.1).2 hc))

theorem pydel_of_not_hasKey (d : List (String × Value)) (k : String)
    (h : hasKey d k = false) : pydel d k = d := by
  induction d with
  | nil => rfl
  | cons e t ih =>
      by_cases h1 : e.1 = k
      · simp [hasKey, h1] at h
      · simp [hasKey, h1] at h
        simp [pydel, h1, ih h]

theorem length_pydel_of_nodup (d : List (String × Value)) (k : String)
    (hnd : keysNodup d) (h : hasKey d k = true) :
    (pydel d k).length + 1 = d.length := by
  induction d with
  | nil => simp [hasKey] at h
  | cons e t ih =>
      simp only [keysNodup, List.map_cons, List.nodup_cons] at hnd
      by_cases h1 : e.1 = k
      · have ht : hasKey t k = false := by
          rw [← h1]
          by_contra hc
          exact hnd.1 ((hasKey_iff_mem t e.1).1 (by simpa using hc))
        simp [pydel, h1, pydel_of_not_hasKey t k ht]
      · simp [hasKey, h1] at h
        simp [pydel, h1]
        exact ih hnd.2 h

theorem pydel_append (a b : List (String × Value)) (k : String) :
    pydel (a ++ b) k = pydel a k ++ pydel b k := by
  induction a with
  | nil => rfl
  | cons e t ih => by_cases h : e.1 = k <;> simp [pydel, h, ih]

theorem pyinsert_of_hasKey (d : List (String × Value)) (k : String) (v : Value)
    (h : hasKey d k = true) : pyinsert d k v = setKey d k v := by
  simp [pyinsert, h]

theorem pyinsert_of_not_hasKey (d : List (String × Value)) (k : String) (v : Value)
    (h : hasKey d k = false) : pyinsert d k v = d ++ [(k, v)] := by
  simp [pyinsert, h]

theorem pyget?_pyinsert_self (d : List (String × Value)) (k : String) (v : Value) :
    pyget? (pyinsert d k v) k = some v := by
  by_cases h : hasKey d k
  · rw [pyinsert_of_hasKey d k v h, pyget?_setKey_self d k v h]
  · rw [pyinsert_of_not_hasKey d k v (by simpa using h),
        pyget?_append_of_hasKey d _ k (by simpa using h)]
    simp [pyget?]

theorem pyget?_pyinsert_ne (d : List (String × Value)) (k x : String) (v : Value)
    (h : x ≠ k) : pyget? (pyinsert d k v) x = pyget? d x := by
  by_cases hh : hasKey d k
  · rw [pyinsert_of_hasKey d k v hh, pyget?_setKey_ne d k x v h]
  · rw [pyinsert_of_not_hasKey d k v (by simpa using hh),
        pyget?_append_single_ne d k x v h]

theorem hasKey_pyinsert_ne (d : List (String × Value)) (k x : String) (v : Value)
    (h : x ≠ k) : hasKey (pyinsert d k v) x = hasKey d x := by
  rw [hasKey_eq_isSome, hasKey_eq_isSome, pyget?_pyinsert_ne d k x v h]

theorem length_pyinsert_of_hasKey (d : List (String × Value)) (k : String) (v : Value)
    (h : hasKey d k = true) : (pyinsert d k v).length = d.length := by
  rw [pyinsert_of_hasKey d k v h, length_setKey]

theorem keysNodup_pyinsert (d : List (String × Value)) (k : String) (v : Value)
    (hnd : keysNodup d) : keysNodup (pyinsert d k v) := by
  by_cases h : hasKey d k
  · rw [pyinsert_of_hasKey d k v h]
    unfold keysNodup
    rw [keys_setKey]
    exact hnd
  · rw [pyinsert_of_not_hasKey d k v (by simpa using h)]
    unfold keysNodup
    rw [List.map_append]
    rw [List.nodup_append]
    refine ⟨hnd, List.nodup_singleton k, ?_⟩
    intro x hx hx2
    simp at hx2
    subst hx2
    exact h ((hasKey_iff_mem d x).2 hx)

/-- Unfolding of one loop iteration (the `let` inlined). -/
theorem ppLoop_cons (k : String) (v2 : Value)
    (rest params : List (String × Value)) :
    ppLoop ((k, v2) :: rest) params
    = ppLoop rest (if camelCase k = k then pyinsert params (camelCase k) v2
                   else pydel (pyinsert params (camelCase k) v2) k) := rfl

/-- Frame property of the loop: keys it never writes or deletes keep their
lookup result. -/
theorem ppLoop_frame (es params : List (String × Value)) (key : String)
    (h1 : ∀ e ∈ es, e.1 ≠ key) (h2 : ∀ e ∈ es, camelCase e.1 ≠ key) :
    pyget? (ppLoop es params) key = pyget? params key := by
  induction es generalizing params with
  | nil => rfl
  | cons e rest ih =>
      obtain ⟨k, v2⟩ := e
      have hk : k ≠ key := h1 (k, v2) (by simp)
      have hck : camelCase k ≠ key := h2 (k, v2) (by simp)
      rw [ppLoop_cons]
      rw [ih _ (fun e he => h1 e (List.mem_cons_of_mem _ he))
            (fun e he => h2 e (List.mem_cons_of_mem _ he))]
      by_cases hcc : camelCase k = k
      · rw [if_pos hcc, pyget?_pyinsert_ne params _ key v2 (Ne.symm hck)]
      · rw [if_neg hcc, pyget?_pydel_ne _ k key (Ne.symm hk),
            pyget?_pyinsert_ne params _ key v2 (Ne.symm hck)]

/-- Main loop invariant: when the pending original keys are present and
pairwise distinct, their camel-cased forms are pairwise distinct, and every
properly renamed key is fresh, the loop stores each entry's value under its
camel-cased key and preserves the number of entries. -/
theorem ppLoop_spec (es : List (String × Value)) :
    ∀ params : List (String × Value),
    (∀ e ∈ es, hasKey params e.1 = true) →
    ((es.map Prod.fst).Nodup) →
    ((es.map (fun e => camelCase e.1)).Nodup) →
    (∀ e ∈ es, camelCase e.1 ≠ e.1 → hasKey params (camelCase e.1) = false) →
    keysNodup params →
    (∀ e ∈ es, pyget? (ppLoop es params) (camelCase e.1) = some e.2)
    ∧ (ppLoop es params).length = params.length := by
  induction es with
  | nil => exact fun params _ _ _ _ _ => ⟨by simp, rfl⟩
  | cons e rest ih =>
      intro params hkeys hnes hncs hfresh hnp
      obtain ⟨k, v2⟩ := e
      have hkparams : hasKey params k = true := hkeys (k, v2) (by simp)
      simp only [List.map_cons, List.nodup_cons] at hnes hncs
      have hknotin : k ∉ rest.map Prod.fst := hnes.1
      have hcknotin : camelCase k ∉ rest.map (fun e => camelCase e.1) := hncs.1
      by_cases hcc : camelCase k = k
      · -- in-place update
        rw [ppLoop_cons, if_pos hcc]
        have hhasck : hasKey params (camelCase k) = true := by rw [hcc]; exact hkparams
        have hkeys2 : ∀ e2 ∈ rest, hasKey (pyinsert params (camelCase k) v2) e2.1 = true := by
          intro e2 he2
          by_cases hxk : e2.1 = camelCase k
          · rw [hxk, hasKey_eq_isSome, pyget?_pyinsert_self]
            rfl
          · rw [hasKey_pyinsert_ne params _ _ v2 hxk]
            exact hkeys e2 (by simp [he2])
        have hfresh2 : ∀ e2 ∈ rest, camelCase e2.1 ≠ e2.1 →
            hasKey (pyinsert params (camelCase k) v2) (camelCase e2.1) = false := by
          intro e2 he2 hne
          have hne2 : camelCase e2.1 ≠ camelCase k := by
            intro hc
            exact hcknotin (hc ▸ (List.mem_map.2 ⟨e2, he2, rfl⟩))
          rw [hasKey_pyinsert_ne params _ _ v2 hne2]
          exact hfresh e2 (by simp [he2]) hne
        have hnp2 : keysNodup (pyinsert params (camelCase k) v2) :=
          keysNodup_pyinsert params _ v2 hnp
        obtain ⟨ihl, ihlen⟩ := ih (pyinsert params (camelCase k) v2)
          hkeys2 hnes.2 hncs.2 hfresh2 hnp2
        refine ⟨?_, ?_⟩
        · intro e2 he2
          rcases List.mem_cons.1 he2 with he2 | he2
          · -- the head entry
            rw [he2]
            have hframe : pyget? (ppLoop rest (pyinsert params (camelCase k) v2)) (camelCase k)
                = pyget? (pyinsert params (camelCase k) v2) (camelCase k) := by
              apply ppLoop_frame
              · intro e3 he3 hc
                have he3k : e3.1 = k := by rw [hc, hcc]
                exact hknotin (he3k ▸ (List.mem_map.2 ⟨e3, he3, rfl⟩))
              · intro e3 he3 hc
                exact hcknotin (hc ▸ (List.mem_map.2 ⟨e3, he3, rfl⟩))
            rw [hframe, pyget?_pyinsert_self]
          · exact ihl e2 he2
        · rw [ihlen, length_pyinsert_of_hasKey params _ v2 hhasck]
      · -- renamed: append the camel key, delete the original
        rw [ppLoop_cons, if_neg hcc]
        have hfreshk : hasKey params (camelCase k) = false := hfresh (k, v2) (by simp) hcc
        have hp1 : pyinsert params (camelCase k) v2 = params ++ [(camelCase k, v2)] :=
          pyinsert_of_not_hasKey params _ v2 hfreshk
        have hp2 : pydel (pyinsert params (camelCase k) v2) k
            = pydel params k ++ [(camelCase k, v2)] := by
          rw [hp1, pydel_append]
          simp [pydel, hcc]
        have hkeys2 : ∀ e2 ∈ rest,
            hasKey (pydel (pyinsert params (camelCase k) v2) k) e2.1 = true := by
          intro e2 he2
          have hne : e2.1 ≠ k := by
            intro hc
            exact hknotin (hc ▸ (List.mem_map.2 ⟨e2, he2, rfl⟩))
          rw [hp2, hasKey_append, hasKey_pydel_ne params k _ hne,
              hkeys e2 (by simp [he2])]
          rfl
        have hfresh2 : ∀ e2 ∈ rest, camelCase e2.1 ≠ e2.1 →
            hasKey (pydel (pyinsert params (camelCase k) v2) k) (camelCase e2.1) = false := by
          intro e2 he2 hne
          have hf2 : hasKey params (camelCase e2.1) = false := hfresh e2 (by simp [he2]) hne
          have hne2 : camelCase e2.1 ≠ camelCase k := by
            intro hc
            exact hcknotin (hc ▸ (List.mem_map.2 ⟨e2, he2, rfl⟩))
          have hnek : camelCase e2.1 ≠ k := by
            intro hc
            rw [hc] at hf2
            rw [hkparams] at hf2
            exact Bool.noConfusion hf2
          rw [hp2, hasKey_append, hasKey_pydel_ne params k _ hnek, hf2]
          simp [hasKey, Ne.symm hne2]
        have hnp2 : keysNodup (pydel (pyinsert params (camelCase k) v2) k) := by
          rw [hp2]
          unfold keysNodup
          rw [List.map_append, List.nodup_append]
          refine ⟨keysNodup_pydel params k hnp, List.nodup_singleton _, ?_⟩
          intro x hx hx2
          simp at hx2
          subst hx2
          have hin : hasKey (pydel params k) (camelCase k) = true := (hasKey_iff_mem _ _).2 hx
          have hin2 := hasKey_pydel_imp params k (camelCase k) hin
          rw [hfreshk] at hin2
          exact Bool.noConfusion hin2
        obtain ⟨ihl, ihlen⟩ := ih (pydel (pyinsert params (camelCase k) v2) k)
          hkeys2 hnes.2 hncs.2 hfresh2 hnp2
        refine ⟨?_, ?_⟩
        · intro e2 he2
          rcases List.mem_cons.1 he2 with he2 | he2
          · rw [he2]
            have hframe : pyget? (ppLoop rest (pydel (pyinsert params (camelCase k) v2) k))
                  (camelCase k)
                = pyget? (pydel (pyinsert params (camelCase k) v2) k) (camelCase k) := by
              apply ppLoop_frame
              · intro e3 he3 hc
                have hck : hasKey params (camelCase k) = true := by
                  rw [← hc]; exact hkeys e3 (by simp [he3])
                rw [hfreshk] at hck
                exact Bool.noConfusion hck
              · intro e3 he3 hc
                exact hcknotin (hc ▸ (List.mem_map.2 ⟨e3, he3, rfl⟩))
            rw [hframe, hp2,
                pyget?_append_of_hasKey _ _ _ (by
                  by_contra hc
                  have hck : hasKey (pydel params k) (camelCase k) = true := by
                    simpa using hc
                  have hck2 := hasKey_pydel_imp params k _ hck
                  rw [hfreshk] at hck2
                  exact Bool.noConfusion hck2)]
            simp [pyget?]
          · exact ihl e2 he2
        · rw [ihlen, hp2, List.length_append]
          simp only [List.length_singleton]
          exact length_pydel_of_nodup params k hnp hkparams

/-- The loop is the identity when every pending key is already a fixed
point of the camel transformation and maps to its own value. -/
theorem ppLoop_id (es : List (String × Value)) :
    ∀ params : List (String × Value),
    (∀ e ∈ es, camelCase e.1 = e.1) →
    (∀ e ∈ es, pyget? params e.1 = some e.2) →
    keysNodup params →
    ppLoop es params = params := by
  induction es with
  | nil => intro params _ _ _; rfl
  | cons e rest ih =>
      intro params hfix hlook hnd
      obtain ⟨k, v2⟩ := e
      have hfk : camelCase k = k := hfix (k, v2) (by simp)
      have hlk : pyget? params k = some v2 := hlook (k, v2) (by simp)
      rw [ppLoop_cons, if_pos hfk]
      have hins : pyinsert params (camelCase k) v2 = params := by
        rw [hfk, pyinsert_of_hasKey params k v2 (by rw [hasKey_eq_isSome, hlk]; rfl),
            setKey_eq_self params k v2 hnd hlk]
      rw [hins]
      exact ih params (fun e he => hfix e (List.mem_cons_of_mem _ he))
        (fun e he => hlook e (List.mem_cons_of_mem _ he)) hnd

theorem normEntries_keys (es : List (String × Value)) :
    (normEntries es).map Prod.fst = es.map Prod.fst := by
  induction es with
  | nil => rfl
  | cons e rest ih =>
      obtain ⟨k, v⟩ := e
      simp [normEntries, ih]

theorem mem_normEntries (es : List (String × Value)) (k : String) (v : Value)
    (h : (k, v) ∈ es) : (k, normValue v) ∈ normEntries es := by
  induction es with
  | nil => simp at h
  | cons e rest ih =>
      obtain ⟨k1, v1⟩ := e
      rcases List.mem_cons.1 h with h | h
      · rw [Prod.mk.injEq] at h
        obtain ⟨rfl, rfl⟩ := h
        simp [normEntries]
      · simp only [normEntries, List.mem_cons]
        exact Or.inr (ih h)

theorem process_parameters_eq_ppLoop (ps : List (String × Value)) :
    process_parameters ps = ppLoop (normEntries ps) ps := by
  cases ps with
  | nil => rfl
  | cons e rest =>
      obtain ⟨k, v⟩ := e
      rfl

theorem pyget?_of_mem_nodup (d : List (String × Value)) (k : String) (v : Value)
    (hnd : keysNodup d) (h : (k, v) ∈ d) : pyget? d k = some v := by
  induction d with
  | nil => simp at h
  | cons e t ih =>
      simp only [keysNodup, List.map_cons, List.nodup_cons] at hnd
      rcases List.mem_cons.1 h with h | h
      · rw [← h]
        simp [pyget?]
      · have hne : e.1 ≠ k := by
          intro hc
          apply hnd.1
          rw [hc]
          exact List.mem_map.2 ⟨(k, v), h, rfl⟩
        simp [pyget?, hne, ih hnd.2 h]

theorem camelFixedEntries_mem (es : List (String × Value))
    (h : camelFixedEntries es = true) : ∀ e ∈ es, camelCase e.1 = e.1 := by
  induction es with
  | nil => simp
  | cons e2 rest ih =>
      obtain ⟨k, v⟩ := e2
      simp only [camelFixedEntries, Bool.and_eq_true, decide_eq_true_eq] at h
      intro e3 he3
      rcases List.mem_cons.1 he3 with he3 | he3
      · rw [he3]
        exact h.1.1
      · exact ih h.2 e3 he3

theorem keysNodup_of_nodupKeysEntries (es : List (String × Value))
    (h : nodupKeysEntries es = true) : keysNodup es := by
  induction es with
  | nil => simp [keysNodup]
  | cons e rest ih =>
      obtain ⟨k, v⟩ := e
      simp only [nodupKeysEntries, Bool.and_eq_true, Bool.not_eq_true'] at h
      simp only [keysNodup, List.map_cons, List.nodup_cons]
      refine ⟨fun hc => ?_, ih h.2⟩
      have hmem := (hasKey_iff_mem rest k).2 hc
      rw [h.1.1] at hmem
      exact Bool.noConfusion hmem

mutual

/-- On a deeply camel-fixed, deeply nodup value, normalization is the
identity. -/
theorem camelFixed_normValue : ∀ (v : Value), camelFixedValue v = true →
    nodupKeysValue v = true → normValue v = v
  | Value.null, _, _ => rfl
  | Value.str _, _, _ => rfl
  | Value.num _, _, _ => rfl
  | Value.bool _, _, _ => rfl
  | Value.list _, _, _ => rfl
  | Value.dict d, h1, h2 => by
      simp only [normValue]
      rw [camelFixed_process_parameters d (by simpa [camelFixedValue] using h1)
        (by simpa [nodupKeysValue] using h2)]

/-- Entry-list version of `camelFixed_normValue`. -/
theorem camelFixed_normEntries : ∀ (es : List (String × Value)),
    camelFixedEntries es = true → nodupKeysEntries es = true → normEntries es = es
  | [], _, _ => rfl
  | (k, v) :: rest, h1, h2 => by
      simp only [camelFixedEntries, Bool.and_eq_true, decide_eq_true_eq] at h1
      simp only [nodupKeysEntries, Bool.and_eq_true] at h2
      simp only [normEntries]
      rw [camelFixed_normValue v h1.1.2 h2.1.2, camelFixed_normEntries rest h1.2 h2.2]

/-- A deeply camel-fixed mapping with deeply distinct keys is a fixed point
of `process_parameters`. -/
theorem camelFixed_process_parameters : ∀ (ps : List (String × Value)),
    camelFixedEntries ps = true → nodupKeysEntries ps = true → process_parameters ps = ps
  | [], _, _ => rfl
  | (k, v) :: rest, h1, h2 => by
      have hv : normValue v = v := by
        have h1s := h1
        have h2s := h2
        simp only [camelFixedEntries, Bool.and_eq_true, decide_eq_true_eq] at h1s
        simp only [nodupKeysEntries, Bool.and_eq_true] at h2s
        exact camelFixed_normValue v h1s.1.2 h2s.1.2
      have hrest : normEntries rest = rest := by
        have h1s := h1
        have h2s := h2
        simp only [camelFixedEntries, Bool.and_eq_true, decide_eq_true_eq] at h1s
        simp only [nodupKeysEntries, Bool.and_eq_true] at h2s
        exact camelFixed_normEntries rest h1s.2 h2s.2
      show ppLoop ((k, normValue v) :: normEntries rest) ((k, v) :: rest) = (k, v) :: rest
      rw [hv, hrest]
      exact ppLoop_id ((k, v) :: rest) ((k, v) :: rest)
        (camelFixedEntries_mem _ h1)
        (fun e he => pyget?_of_mem_nodup _ e.1 e.2 (keysNodup_of_nodupKeysEntries _ h2) he)
        (keysNodup_of_nodupKeysEntries _ h2)

end

/-- C4 (amended). For every mapping whose keys are pairwise distinct,
whose camel-cased keys are pairwise distinct, and in which a camel-cased
key may only coincide with an original key that is its own fixed point,
`process_parameters` returns a mapping storing, for every input entry, the
recursively normalized value under the key with each underscore-followed-
by-a-word-character pair replaced by the uppercased word character
(underscores not followed by a word character are preserved); it preserves
the number of entries, passes non-mapping values through unchanged, maps
an empty mapping to an empty mapping, and is a fixed point (hence
idempotent) on mappings that are already camel-fixed at every level.
(The pure model cannot mutate its input; the source achieves this with
`copy.copy`.) -/
theorem process_parameters_normalizes (ps : List (String × Value))
    (hK : (ps.map Prod.fst).Nodup)
    (hC : (ps.map (fun e => camelCase e.1)).Nodup)
    (hX : ∀ k1 ∈ ps.map Prod.fst, ∀ k2 ∈ ps.map Prod.fst,
      camelCase k1 = k2 → camelCase k2 = k2) :
    process_parameters ([] : List (String × Value)) = []
    ∧ (∀ k v, (k, v) ∈ ps →
        pyget? (process_parameters ps) (camelCase k) = some (normValue v))
    ∧ (process_parameters ps).length = ps.length
    ∧ (∀ v : Value, (∀ d, v ≠ Value.dict d) → normValue v = v)
    ∧ (nodupKeysEntries ps = true → camelFixedEntries ps = true →
        process_parameters ps = ps
        ∧ process_parameters (process_parameters ps) = process_parameters ps) := by
  have hmapcamel : (ps.map Prod.fst).map camelCase = ps.map (fun e => camelCase e.1) := by
    rw [List.map_map]
    rfl
  have hkeys : ∀ e ∈ normEntries ps, hasKey ps e.1 = true := by
    intro e he
    apply (hasKey_iff_mem ps e.1).2
    have : e.1 ∈ (normEntries ps).map Prod.fst := List.mem_map.2 ⟨e, he, rfl⟩
    rwa [normEntries_keys] at this
  have hnes : ((normEntries ps).map Prod.fst).Nodup := by
    rw [normEntries_keys]; exact hK
  have hncs : ((normEntries ps).map (fun e => camelCase e.1)).Nodup := by
    have : (normEntries ps).map (fun e => camelCase e.1)
        = ((normEntries ps).map Prod.fst).map camelCase := by
      rw [List.map_map]
      rfl
    rw [this, normEntries_keys, hmapcamel]
    exact hC
  have hfresh : ∀ e ∈ normEntries ps, camelCase e.1 ≠ e.1 →
      hasKey ps (camelCase e.1) = false := by
    intro e he hne
    by_contra hc
    have hc2 : hasKey ps (camelCase e.1) = true := by simpa using hc
    have hmemb : camelCase e.1 ∈ ps.map Prod.fst := (hasKey_iff_mem _ _).1 hc2
    have hmema : e.1 ∈ ps.map Prod.fst := by
      have : e.1 ∈ (normEntries ps).map Prod.fst := List.mem_map.2 ⟨e, he, rfl⟩
      rwa [normEntries_keys] at this
    have hfix : camelCase (camelCase e.1) = camelCase e.1 :=
      hX e.1 hmema (camelCase e.1) hmemb rfl
    have hCk : ((ps.map Prod.fst).map camelCase).Nodup := by rw [hmapcamel]; exact hC
    have heq : e.1 = camelCase e.1 :=
      List.inj_on_of_nodup_map hCk hmema hmemb hfix.symm
    exact hne heq.symm
  have hspec := ppLoop_spec (normEntries ps) ps hkeys hnes hncs hfresh hK
  refine ⟨rfl, ?_, ?_, ?_, ?_⟩
  · intro k v hmem
    rw [process_parameters_eq_ppLoop]
    exact hspec.1 (k, normValue v) (mem_normEntries ps k v hmem)
  · rw [process_parameters_eq_ppLoop]
    exact hspec.2
  · intro v hv
    cases v with
    | dict d => exact absurd rfl (hv d)
    | null => rfl
    | str s => rfl
    | num n => rfl
    | bool b => rfl
    | list l => rfl
  · intro hnd hcf
    have h5 := camelFixed_process_parameters ps hcf hnd
    exact ⟨h5, by rw [h5]; exact h5⟩

/-- C4 counterexample: the claim's transformation removes every underscore
(so `a_` becomes `a`), but the source regex `_(\w)` does not match a
trailing underscore, which the code therefore keeps. -/
theorem process_parameters_counterexample :
    process_parameters [("a_", Value.num 1)] = [("a_", Value.num 1)]
    ∧ specCamelCase "a_" = "a"
    ∧ process_parameters [("a_", Value.num 1)] ≠ [(specCamelCase "a_", Value.num 1)]
    ∧ camelCase "a_" ≠ specCamelCase "a_" := by decide

/-- Witness for the amended C4 theorem at a concrete nested mapping. -/
theorem process_parameters_normalizes_witness :
    pyget? (process_parameters [("type_name", Value.str "Trip"),
        ("search", Value.dict [("device_id", Value.str "b1")])]) (camelCase "type_name")
      = some (normValue (Value.str "Trip"))
    ∧ (process_parameters [("type_name", Value.str "Trip"),
        ("search", Value.dict [("device_id", Value.str "b1")])]).length = 2
    ∧ process_parameters [("typeName", Value.str "Trip")] = [("typeName", Value.str "Trip")] := by
  refine ⟨?_, ?_, ?_⟩
  · exact (process_parameters_normalizes
      [("type_name", Value.str "Trip"), ("search", Value.dict [("device_id", Value.str "b1")])]
      (by decide) (by decide) (by decide)).2.1 "type_name" (Value.str "Trip") (by decide)
  · exact (process_parameters_normalizes
      [("type_name", Value.str "Trip"), ("search", Value.dict [("device_id", Value.str "b1")])]
      (by decide) (by decide) (by decide)).2.2.1
  · exact ((process_parameters_normalizes [("typeName", Value.str "Trip")]
      (by decide) (by decide) (by decide)).2.2.2.2 (by decide) (by decide)).1

/-- C3 (amended). Falsy documents pass through; a mapping with an `error`
key raises the remote error built from that key's payload, even when a
`result` key is also present; a mapping with `result` and no `error`
returns the payload; any other truthy mapping passes through. A truthy
non-mapping document passes through only when it is a string (or list)
containing neither `"error"` nor `"result"`; otherwise the `in` test or
the subscript raises a TypeError. -/
theorem process_response_spec (data : Value) :
    (pyTruthy data = false → _process data = ProcResult.ok data)
    ∧ (∀ d e, data = Value.dict d → pyget? d "error" = some e →
        _process data = ProcResult.raised e
        ∧ (∀ d2, e = Value.dict d2 → mkRemoteError e
            = ⟨(pyget? d2 "name").getD Value.null, (pyget? d2 "message").getD Value.null⟩))
    ∧ (∀ d r, data = Value.dict d → pyget? d "error" = none → pyget? d "result" = some r →
        _process data = ProcResult.ok r)
    ∧ (∀ d, data = Value.dict d → pyTruthy data = true → pyget? d "error" = none →
        pyget? d "result" = none → _process data = ProcResult.ok data)
    ∧ (∀ n : Int, data = Value.num n → n ≠ 0 → _process data = ProcResult.typeError)
    ∧ (∀ s : String, data = Value.str s → s ≠ "" →
        containsSub "error".toList s.toList = false →
        containsSub "result".toList s.toList = false →
        _process data = ProcResult.ok data) := by
  refine ⟨?_, ?_, ?_, ?_, ?_, ?_⟩
  · intro h
    simp [_process, h]
  · intro d e hd he
    subst hd
    have ht : pyTruthy (Value.dict d) = true := by
      cases d with
      | nil => simp [pyget?] at he
      | cons a t => simp [pyTruthy]
    have hk : hasKey d "error" = true := by rw [hasKey_eq_isSome, he]; rfl
    refine ⟨?_, ?_⟩
    · simp [_process, ht, pyIn, hk, he]
    · intro d2 he2
      subst he2
      rfl
  · intro d r hd herr hres
    subst hd
    have ht : pyTruthy (Value.dict d) = true := by
      cases d with
      | nil => simp [pyget?] at hres
      | cons a t => simp [pyTruthy]
    have hk : hasKey d "error" = false := by rw [hasKey_eq_isSome, herr]; rfl
    have hkr : hasKey d "result" = true := by rw [hasKey_eq_isSome, hres]; rfl
    simp [_process, ht, pyIn, hk, hkr, hres]
  · intro d hd ht herr hres
    subst hd
    have hk : hasKey d "error" = false := by rw [hasKey_eq_isSome, herr]; rfl
    have hkr : hasKey d "result" = false := by rw [hasKey_eq_isSome, hres]; rfl
    simp [_process, ht, pyIn, hk, hkr]
  · intro n hd hn
    subst hd
    simp [_process, pyTruthy, pyIn, hn]
  · intro s hd hs h1 h2
    subst hd
    have h1b : containsSub ['e', 'r', 'r', 'o', 'r'] s.data = false := h1
    have h2b : containsSub ['r', 'e', 's', 'u', 'l', 't'] s.data = false := h2
    simp [_process, pyTruthy, pyIn, hs, h1b, h2b]

/-- C3 counterexample: a truthy non-mapping document (the number 5) is not
returned unchanged; the `in` test on it raises a TypeError. -/
theorem process_response_counterexample :
    _process (Value.num 5) = ProcResult.typeError
    ∧ ProcResult.typeError ≠ ProcResult.ok (Value.num 5)
    ∧ _process (Value.str "an error occurred") = ProcResult.typeError := by decide

/-- Witness for the amended C3 theorem: an error document with a
coincidental result key raises the remote error; a result document returns
the payload. -/
theorem process_response_spec_witness :
    _process (Value.dict [("error", Value.dict [("name", Value.str "SomeFault"),
        ("message", Value.str "boom")]), ("result", Value.num 1)])
      = ProcResult.raised (Value.dict [("name", Value.str "SomeFault"),
          ("message", Value.str "boom")])
    ∧ mkRemoteError (Value.dict [("name", Value.str "SomeFault"),
        ("message", Value.str "boom")])
      = ⟨Value.str "SomeFault", Value.str "boom"⟩
    ∧ _process (Value.dict [("result", Value.num 7)]) = ProcResult.ok (Value.num 7) := by
  refine ⟨?_, ?_, ?_⟩
  · exact ((process_response_spec _).2.1 _ _ rfl (by decide)).1
  · exact (((process_response_spec (Value.dict [("error", Value.dict [("name", Value.str "SomeFault"),
      ("message", Value.str "boom")]), ("result", Value.num 1)])).2.1 _ _ rfl (by decide)).2 _ rfl)
  · exact (process_response_spec _).2.2.1 _ _ rfl (by decide) (by decide)

/-- C6: at the scheme-less server string `my.geotab.com/path` the code
keeps the path inside the endpoint, because the source line
`base_url.replace("/", "")` discards its result; the claim expects the
host-only endpoint. -/
theorem get_api_url_keeps_path :
    get_api_url "my.geotab.com/path" = "https://my.geotab.com/path/apiv1"
    ∧ api_base "my.geotab.com/path" = "my.geotab.com/path"
    ∧ get_api_url "my.geotab.com/path" ≠ "https://my.geotab.com/apiv1" := by decide

/-- C7 counterexample: resolution is not idempotent on a scheme-less
server string containing a path (the first resolution keeps the path, the
second parses the scheme and drops it). -/
theorem get_api_url_not_idempotent :
    get_api_url (get_api_url "my.geotab.com/foo") ≠ get_api_url "my.geotab.com/foo"
    ∧ get_api_url "my.geotab.com/foo" = "https://my.geotab.com/foo/apiv1"
    ∧ get_api_url (get_api_url "my.geotab.com/foo") = "https://my.geotab.com/apiv1" := by decide

/-- C8 (amended). TLS verification is decided by substring containment on
the resolved endpoint URL: a resolved host equal to `127.0.0.1` or
`localhost` disables verification; verification is enabled when the URL
contains neither substring, and disabled when it contains either one (so
it is disabled exactly on URL-substring containment — which also covers
loopback hosts carrying a port, such as `127.0.0.1:8080`). -/
theorem verify_ssl_substring_match (c : Credentials) :
    ((api_base (resolved_server c) = "127.0.0.1"
      ∨ api_base (resolved_server c) = "localhost") → _is_verify_ssl c = false)
    ∧ ((strContains (get_api_url (resolved_server c)) "127.0.0.1" = false
        ∧ strContains (get_api_url (resolved_server c)) "localhost" = false) →
      _is_verify_ssl c = true)
    ∧ ((strContains (get_api_url (resolved_server c)) "127.0.0.1" = true
        ∨ strContains (get_api_url (resolved_server c)) "localhost" = true) →
      _is_verify_ssl c = false) := by
  refine ⟨?_, ?_, ?_⟩
  · intro h
    rcases h with h | h <;>
      · simp only [_is_verify_ssl, get_api_url, h]
        decide
  · intro h
    simp [_is_verify_ssl, h.1, h.2]
  · intro h
    rcases h with h | h <;> simp [_is_verify_ssl, h]

/-- C8 counterexample: the host `localhost.example.com` is not a loopback
address, yet verification is disabled for it because the endpoint URL
contains `localhost` as a substring. -/
theorem verify_ssl_counterexample :
    _is_verify_ssl ⟨"u", none, none, some "localhost.example.com", none⟩ = false
    ∧ api_base (resolved_server ⟨"u", none, none, some "localhost.example.com", none⟩)
        = "localhost.example.com"
    ∧ ("localhost.example.com" : String) ≠ "localhost"
    ∧ ("localhost.example.com" : String) ≠ "127.0.0.1" := by decide

/-- Witness for the amended C8 theorem at loopback and production hosts. -/
theorem verify_ssl_substring_match_witness :
    _is_verify_ssl ⟨"u", none, none, some "127.0.0.1", none⟩ = false
    ∧ _is_verify_ssl ⟨"u", none, none, some "my.geotab.com", none⟩ = true
    ∧ _is_verify_ssl ⟨"u", none, none, some "127.0.0.1:8080", none⟩ = false := by
  refine ⟨?_, ?_, ?_⟩
  · exact (verify_ssl_substring_match _).1 (Or.inl (by decide))
  · exact (verify_ssl_substring_match _).2.1 (by decide)
  · exact (verify_ssl_substring_match _).2.2 (Or.inl (by decide))

/-- C5: the `get` parameter shaping at `search={"id": "b1"}`. The nested
search dict is flattened into the criteria, but the stale `search` key
remains inside the dispatched search criteria because the source never
deletes it after `parameters.update(parameters["search"])`. -/
theorem get_params_search_key_retained :
    get_params "Device" [("search", Value.dict [("id", Value.str "b1")])]
      = some [("type_name", Value.str "Device"),
              ("search", Value.dict [("search", Value.dict [("id", Value.str "b1")]),
                                     ("id", Value.str "b1")]),
              ("resultsLimit", Value.null)]
    ∧ hasKey [("search", Value.dict [("id", Value.str "b1")]), ("id", Value.str "b1")]
        "search" = true := by decide

/-- C9: `multi_call` delegates exactly one call to the core `call` under
the fixed method name `ExecuteMultiCall`, with the formatted call list as
the `calls` parameter; the formatted list preserves length and submission
order, substituting an empty dict for omitted params. -/
theorem multi_call_delegates (fuel : Nat) (st : ApiState)
    (calls : List (String × Option (List (String × Value))))
    (trace : List QueryOutcome) :
    multi_call fuel st calls trace
      = callFuel fuel st "ExecuteMultiCall" [("calls", Value.list (formatCalls calls))] trace
    ∧ (formatCalls calls).length = calls.length
    ∧ (∀ i : Nat, (formatCalls calls)[i]?
        = (calls[i]?).map (fun c => Value.dict
            [("method", Value.str c.1), ("params", Value.dict (c.2.getD []))])) := by
  refine ⟨rfl, by simp [formatCalls], ?_⟩
  intro i
  simp [formatCalls]

/-- When a session is present but no retry is admissible (nonzero counter
or falsy password), an `InvalidUserException` on the query raises
`AuthenticationException` from the current credentials at once: state
untouched, exactly one wire request, no authenticate. -/
theorem call_invalidUser_no_retry (n : Nat) (st : ApiState) (method : String)
    (ps : List (String × Value)) (msg : String) (rest : List QueryOutcome)
    (hs : optTruthy st.credentials.session_id = true)
    (hnr : (decide (st.reauthorize_count = 0) && optTruthy st.credentials.password) = false) :
    callFuel (n + 1) st method ps (QueryOutcome.remoteErr "InvalidUserException" msg :: rest)
      = ⟨Except.error (Exc.authExc st.credentials.username st.credentials.database
          st.credentials.server), st, rest, [(method, wireParams st ps)]⟩ := by
  simp [callFuel, hs, hnr]

/-- Requests differ between the first attempt and the retry only in the
injected session credential. -/
theorem pydel_wireParams (st : ApiState) (ps : List (String × Value)) :
    pydel (wireParams st ps) "credentials" = pydel (process_parameters ps) "credentials" := by
  unfold wireParams
  by_cases h : (!(hasKey (process_parameters ps) "credentials")
      && optTruthy st.credentials.session_id) = true
  · rw [if_pos h]
    have hparts : hasKey (process_parameters ps) "credentials" = false
        ∧ optTruthy st.credentials.session_id = true := by simpa using h
    rw [pyinsert_of_not_hasKey _ _ _ hparts.1, pydel_append]
    simp [pydel]
  · rw [if_neg h]

/-- C2: with a session present and no (truthy) password stored, an
`InvalidUserException` remote error on the call raises
`AuthenticationException` immediately: zero authenticates, zero retries,
exactly one wire request (the original call), and unchanged state; the
raised error carries exactly the username, database and server (the
modelled exception has no password component at all). -/
theorem call_invalidUser_no_password (n : Nat) (st : ApiState) (method : String)
    (ps : List (String × Value)) (msg : String) (rest : List QueryOutcome)
    (hs : optTruthy st.credentials.session_id = true)
    (hp : optTruthy st.credentials.password = false) :
    callFuel (n + 1) st method ps (QueryOutcome.remoteErr "InvalidUserException" msg :: rest)
      = ⟨Except.error (Exc.authExc st.credentials.username st.credentials.database
          st.credentials.server), st, rest, [(method, wireParams st ps)]⟩
    ∧ (callFuel (n + 1) st method ps
        (QueryOutcome.remoteErr "InvalidUserException" msg :: rest)).log.length = 1
    ∧ (∀ r ∈ (callFuel (n + 1) st method ps
        (QueryOutcome.remoteErr "InvalidUserException" msg :: rest)).log, r.1 = method) := by
  have h := call_invalidUser_no_retry n st method ps msg rest hs (by rw [hp]; simp)
  refine ⟨h, by rw [h]; rfl, ?_⟩
  rw [h]
  intro r hr
  simp at hr
  subst hr
  rfl

/-- Witness for the C2 theorem at a concrete state and trace. -/
theorem call_invalidUser_no_password_witness :
    callFuel 1 ⟨⟨"alice", some "sid", some "db", some "srv", none⟩, 0⟩ "Get"
        [("type_name", Value.str "Device")]
        [QueryOutcome.remoteErr "InvalidUserException" "bad session"]
      = ⟨Except.error (Exc.authExc "alice" (some "db") (some "srv")),
         ⟨⟨"alice", some "sid", some "db", some "srv", none⟩, 0⟩, [],
         [("Get", wireParams ⟨⟨"alice", some "sid", some "db", some "srv", none⟩, 0⟩
            [("type_name", Value.str "Device")])]⟩ :=
  (call_invalidUser_no_password 0 ⟨⟨"alice", some "sid", some "db", some "srv", none⟩, 0⟩
    "Get" [("type_name", Value.str "Device")] "bad session" [] (by decide) (by decide)).1

/-- C10: a successful `authenticate` (one that replaces the credentials)
always stores a credentials object whose password is `None` — the source
calls `Credentials(userName, sessionId, database, server)` and the
constructor's `password` parameter defaults to `None` — so any later call
under the replaced credentials that meets an invalid-user remote error
raises `AuthenticationException` immediately, with no further authenticate
or retry. -/
theorem authenticate_drops_password (st : ApiState) (trace : List QueryOutcome)
    (n : Nat) (method : String) (ps : List (String × Value)) (msg : String)
    (rest : List QueryOutcome)
    (ha : (authenticate st trace).outcome = AuthOutcome.replaced) :
    (authenticate st trace).state.credentials.password = none
    ∧ (optTruthy (authenticate st trace).state.credentials.session_id = true →
        callFuel (n + 1) (authenticate st trace).state method ps
            (QueryOutcome.remoteErr "InvalidUserException" msg :: rest)
          = ⟨Except.error (Exc.authExc (authenticate st trace).state.credentials.username
              (authenticate st trace).state.credentials.database
              (authenticate st trace).state.credentials.server),
             (authenticate st trace).state, rest,
             [(method, wireParams (authenticate st trace).state ps)]⟩) := by
  have hpw : (authenticate st trace).state.credentials.password = none := by
    unfold authenticate at ha ⊢
    cases trace with
    | nil => simp at ha
    | cons o rest2 =>
        cases o with
        | ok result =>
            by_cases ht : pyTruthy result = true
            · cases hq : parseAuth result with
              | none => simp [ht, hq] at ha
              | some q =>
                  obtain ⟨path, u, sid, db⟩ := q
                  simp [ht, hq]
            · simp [ht] at ha
        | remoteErr name m =>
            by_cases hn : name = "InvalidUserException" <;> simp [hn] at ha
  refine ⟨hpw, fun hsid => ?_⟩
  exact call_invalidUser_no_retry n _ method ps msg rest hsid (by rw [hpw]; simp [optTruthy])

/-- Witness for the C10 theorem: authenticate with a password-carrying
state and a concrete success payload, then hit the invalid-user error. -/
theorem authenticate_drops_password_witness :
    (authenticate ⟨⟨"alice", none, some "db", some "srv", some "pw"⟩, 0⟩
        [QueryOutcome.ok (Value.dict [("path", Value.str "my2.geotab.com"),
          ("credentials", Value.dict [("userName", Value.str "alice"),
            ("sessionId", Value.str "s2"), ("database", Value.str "db2")])])]).state.credentials.password = none :=
  (authenticate_drops_password ⟨⟨"alice", none, some "db", some "srv", some "pw"⟩, 0⟩
    [QueryOutcome.ok (Value.dict [("path", Value.str "my2.geotab.com"),
      ("credentials", Value.dict [("userName", Value.str "alice"),
        ("sessionId", Value.str "s2"), ("database", Value.str "db2")])])]
    0 "Get" [] "x" [] (by decide)).1

/-- C1 (amended). For a top-level invocation that begins with the internal
reauthorization counter at zero (the state after construction and after
every successful call), with a session id and a password present: an
`InvalidUserException` on the query triggers exactly one `Authenticate`
request and exactly one retry of the same call — same method, and the same
wire parameters except for the injected session credential — and a second
`InvalidUserException` during that retry raises `AuthenticationException`
from the replaced credentials, with no further authenticate or retry (the
whole invocation makes exactly three wire requests and consumes exactly
three oracle outcomes). When the invocation instead begins with a nonzero
counter left behind by a previously failed cycle, the first failure raises
immediately (see the counterexample theorem). -/
theorem call_single_reauth_cycle
    (n : Nat) (st : ApiState) (method : String) (ps : List (String × Value))
    (m1 m2 : String) (payload : Value) (rest : List QueryOutcome)
    (path u2 : String) (sid2 db2 : Option String)
    (h0 : st.reauthorize_count = 0)
    (hp : optTruthy st.credentials.password = true)
    (hs : optTruthy st.credentials.session_id = true)
    (hpt : pyTruthy payload = true)
    (hparse : parseAuth payload = some (path, u2, sid2, db2))
    (hsid : optTruthy sid2 = true) :
    callFuel (n + 2) st method ps
        (QueryOutcome.remoteErr "InvalidUserException" m1 ::
          QueryOutcome.ok payload ::
          QueryOutcome.remoteErr "InvalidUserException" m2 :: rest)
      = ⟨Except.error (Exc.authExc u2 db2
            (if path ≠ "ThisServer" then some path else st.credentials.server)),
         ⟨⟨u2, sid2, db2,
            (if path ≠ "ThisServer" then some path else st.credentials.server), none⟩, 1⟩,
         rest,
         [(method, wireParams st ps),
          ("Authenticate", authData st.credentials),
          (method, wireParams ⟨⟨u2, sid2, db2,
            (if path ≠ "ThisServer" then some path else st.credentials.server), none⟩, 1⟩ ps)]⟩
    ∧ pydel (wireParams ⟨⟨u2, sid2, db2,
          (if path ≠ "ThisServer" then some path else st.credentials.server), none⟩, 1⟩ ps)
          "credentials"
        = pydel (wireParams st ps) "credentials" := by
  constructor
  · show callFuel (Nat.succ (n + 1)) st method ps _ = _
    have hopt : optTruthy none = false := rfl
    simp [callFuel, authenticate, hs, h0, hp, hpt, hparse, hsid, authData, hopt]
  · rw [pydel_wireParams, pydel_wireParams]

/-- C1 counterexample: the reauthorization counter is instance state, not
per-invocation state, and it is only reset on a successful query. After an
invocation whose re-authentication itself fails (`Authenticate` answered
with `InvalidUserException`), the counter is left at 1 while the password
is still present. The next top-level invocation then meets its first
`InvalidUserException` with a password present, yet performs zero
authenticates and zero retries — its log is the single original request —
contradicting the claim for that invocation. -/
theorem call_stale_counter_counterexample :
    (callFuel 2 ⟨⟨"alice", some "sid", some "db", some "srv", some "pw"⟩, 0⟩ "Get"
        [("type_name", Value.str "Device")]
        [QueryOutcome.remoteErr "InvalidUserException" "a",
         QueryOutcome.remoteErr "InvalidUserException" "b"]).state
      = ⟨⟨"alice", some "sid", some "db", some "srv", some "pw"⟩, 1⟩
    ∧ optTruthy (some "pw") = true
    ∧ (callFuel 2 ⟨⟨"alice", some "sid", some "db", some "srv", some "pw"⟩, 1⟩ "Get"
        [("type_name", Value.str "Device")]
        [QueryOutcome.remoteErr "InvalidUserException" "c"]).log.length = 1
    ∧ (callFuel 2 ⟨⟨"alice", some "sid", some "db", some "srv", some "pw"⟩, 1⟩ "Get"
        [("type_name", Value.str "Device")]
        [QueryOutcome.remoteErr "InvalidUserException" "c"]).result
      = Except.error (Exc.authExc "alice" (some "db") (some "srv"))
    ∧ (∀ r ∈ (callFuel 2 ⟨⟨"alice", some "sid", some "db", some "srv", some "pw"⟩, 1⟩ "Get"
        [("type_name", Value.str "Device")]
        [QueryOutcome.remoteErr "InvalidUserException" "c"]).log, r.1 ≠ "Authenticate") := by
  decide

/-- Witness for the amended C1 theorem at a concrete state, payload and
trace. -/
theorem call_single_reauth_cycle_witness :
    callFuel 2 ⟨⟨"alice", some "sid", some "db", some "srv", some "pw"⟩, 0⟩ "Get"
        [("type_name", Value.str "Device")]
        [QueryOutcome.remoteErr "InvalidUserException" "a",
         QueryOutcome.ok (Value.dict [("path", Value.str "my2.geotab.com"),
           ("credentials", Value.dict [("userName", Value.str "alice"),
             ("sessionId", Value.str "s2"), ("database", Value.str "db2")])]),
         QueryOutcome.remoteErr "InvalidUserException" "b"]
      = ⟨Except.error (Exc.authExc "alice" (some "db2") (some "my2.geotab.com")),
         ⟨⟨"alice", some "s2", some "db2", some "my2.geotab.com", none⟩, 1⟩, [],
         [("Get", wireParams ⟨⟨"alice", some "sid", some "db", some "srv", some "pw"⟩, 0⟩
            [("type_name", Value.str "Device")]),
          ("Authenticate", authData ⟨"alice", some "sid", some "db", some "srv", some "pw"⟩),
          ("Get", wireParams ⟨⟨"alice", some "s2", some "db2", some "my2.geotab.com", none⟩, 1⟩
            [("type_name", Value.str "Device")])]⟩ :=
  (call_single_reauth_cycle 0 ⟨⟨"alice", some "sid", some "db", some "srv", some "pw"⟩, 0⟩
    "Get" [("type_name", Value.str "Device")] "a" "b"
    (Value.dict [("path", Value.str "my2.geotab.com"),
      ("credentials", Value.dict [("userName", Value.str "alice"),
        ("sessionId", Value.str "s2"), ("database", Value.str "db2")])])
    [] "my2.geotab.com" "alice" (some "s2") (some "db2")
    rfl (by decide) (by decide) (by decide) (by decide) (by decide)).1

/-! Support lemmas for the idempotence of `get_api_url` on bare hosts. -/

theorem takeWhile_eq_self_of_all (p : Char → Bool) (l : List Char)
    (h : ∀ c ∈ l, p c = true) : l.takeWhile p = l := by
  induction l with
  | nil => rfl
  | cons c t ih =>
      rw [List.takeWhile_cons, if_pos (h c (by simp)), ih (fun c hc => h c (by simp [hc]))]

theorem takeWhile_append_of_all (p : Char → Bool) (l1 l2 : List Char)
    (h : ∀ c ∈ l1, p c = true) :
    (l1 ++ l2).takeWhile p = l1 ++ l2.takeWhile p := by
  induction l1 with
  | nil => rfl
  | cons c t ih =>
      rw [List.cons_append, List.takeWhile_cons, if_pos (h c (by simp)),
        ih (fun c hc => h c (by simp [hc])), List.cons_append]

theorem dropWhile_append_of_all (p : Char → Bool) (l1 l2 : List Char)
    (h : ∀ c ∈ l1, p c = true) :
    (l1 ++ l2).dropWhile p = l2.dropWhile p := by
  induction l1 with
  | nil => rfl
  | cons c t ih =>
      rw [List.cons_append, List.dropWhile_cons, if_pos (h c (by simp))]
      exact ih (fun c hc => h c (by simp [hc]))

theorem findColonSplit_eq_none (l : List Char) (h : ∀ c ∈ l, c ≠ ':') :
    findColonSplit l = none := by
  induction l with
  | nil => rfl
  | cons c t ih =>
      rw [findColonSplit, if_neg (h c (by simp)), ih (fun c hc => h c (by simp [hc]))]
      rfl

theorem string_toList_eq_nil (s : String) : s.toList = [] ↔ s = "" := by
  cases s with
  | mk data =>
      constructor
      · intro h
        show String.mk data = String.mk []
        rw [show String.toList (String.mk data) = data from rfl] at h
        rw [h]
      · intro h
        rw [h]
        rfl

theorem asString_toList (s : String) : s.toList.asString = s := by
  cases s
  rfl

theorem asString_data (s : String) : s.data.asString = s := by
  cases s
  rfl

/-- On a nonempty bare host (no slash, colon, question mark or hash), the
resolved endpoint is `https://` + host + `/apiv1`. -/
theorem get_api_url_of_bare (s : String) (hne : s ≠ "")
    (h : ∀ c ∈ s.toList, c ≠ '/' ∧ c ≠ ':' ∧ c ≠ '?' ∧ c ≠ '#') :
    get_api_url s = "https://" ++ s ++ "/apiv1" := by
  have hsplit : splitSchemeL s.toList = s.toList := by
    unfold splitSchemeL
    rw [findColonSplit_eq_none s.toList (fun c hc => (h c hc).2.1)]
  have htake : ¬ s.toList.take 2 = ['/', '/'] := by
    cases hl : s.toList with
    | nil => exact absurd ((string_toList_eq_nil s).1 hl) hne
    | cons c t =>
        have hc : c ≠ '/' := (h c (by rw [hl]; simp)).1
        intro heq
        rw [show (c :: t).take 2 = c :: t.take 1 from rfl] at heq
        exact hc (List.cons.inj heq).1
  have hpp : pathPart s.toList = s.toList := by
    unfold pathPart
    rw [takeWhile_eq_self_of_all _ s.toList (fun c hc => by
        simpa using (h c hc).2.2.2)]
    rw [takeWhile_eq_self_of_all _ s.toList (fun c hc => by
        simpa using (h c hc).2.2.1)]
  show ("https://" ++ (api_base s) ++ "/apiv1") = "https://" ++ s ++ "/apiv1"
  unfold api_base netlocPath
  rw [hsplit, if_neg htake, hpp]
  simp [asString_toList, asString_data]

/-- Resolving the canonical endpoint of a bare host parses the host back as
the network location. -/
theorem api_base_of_url (s : String) (hne : s ≠ "")
    (h : ∀ c ∈ s.toList, c ≠ '/' ∧ c ≠ ':' ∧ c ≠ '?' ∧ c ≠ '#') :
    api_base ("https://" ++ s ++ "/apiv1") = s := by
  have hT : ("https://" ++ s ++ "/apiv1").toList
      = 'h' :: 't' :: 't' :: 'p' :: 's' :: ':' :: '/' :: '/' :: (s.toList ++ "/apiv1".toList) := by
    show (("https://" ++ s) ++ "/apiv1").data = _
    rw [String.data_append, String.data_append, List.append_assoc]
    rfl
  have hcolon : findColonSplit ('h' :: 't' :: 't' :: 'p' :: 's' :: ':' :: '/' :: '/' ::
      (s.toList ++ "/apiv1".toList))
      = some (['h','t','t','p','s'], '/' :: '/' ::(s.toList ++ "/apiv1".toList)) := rfl
  have hsch : splitSchemeL ('h' :: 't' :: 't' :: 'p' :: 's' :: ':' :: '/' :: '/' ::
      (s.toList ++ "/apiv1".toList)) = '/' :: '/' ::(s.toList ++ "/apiv1".toList) := by
    unfold splitSchemeL
    rw [hcolon]
    simp
    decide
  have hnd : ∀ c ∈ s.toList, (!isNetlocDelim c) = true := by
    intro c hc
    obtain ⟨h1, _, h2, h3⟩ := h c hc
    simp [isNetlocDelim, h1, h2, h3]
  have hnetloc : ((s.toList ++ "/apiv1".toList).takeWhile (fun c => !isNetlocDelim c))
      = s.toList := by
    rw [takeWhile_append_of_all _ s.toList _ hnd]
    rw [show ("/apiv1".toList.takeWhile (fun c => !isNetlocDelim c)) = [] from rfl]
    rw [List.append_nil]
  have hdrop : ((s.toList ++ "/apiv1".toList).dropWhile (fun c => !isNetlocDelim c))
      = "/apiv1".toList := by
    rw [dropWhile_append_of_all _ s.toList _ hnd]
    rfl
  have hnil : ¬ s.data = [] := fun hl => absurd ((string_toList_eq_nil s).1 hl) hne
  unfold api_base netlocPath
  rw [hT, hsch,
    if_pos (show ('/' :: '/' ::(s.toList ++ "/apiv1".toList)).take 2 = ['/', '/'] from rfl)]
  simp only [List.drop_succ_cons, List.drop_zero]
  rw [hnetloc, hdrop]
  simp [hnil, asString_data]

/-- C7 (amended). `get_api_url` is idempotent on every nonempty server
string free of `/`, `:`, `?` and `#` — in particular on bare hosts such as
`my23.geotab.com`. (Scheme-less strings containing a path are not
idempotent: see the counterexample theorem.) -/
theorem get_api_url_idempotent_bare (s : String) (hne : s ≠ "")
    (h : ∀ c ∈ s.toList, c ≠ '/' ∧ c ≠ ':' ∧ c ≠ '?' ∧ c ≠ '#') :
    get_api_url (get_api_url s) = get_api_url s := by
  rw [get_api_url_of_bare s hne h]
  show "https://" ++ api_base ("https://" ++ s ++ "/apiv1") ++ "/apiv1" = _
  rw [api_base_of_url s hne h]

/-- Witness for the amended C7 theorem at the claim's example host. -/
theorem get_api_url_idempotent_bare_witness :
    get_api_url (get_api_url "my23.geotab.com") = get_api_url "my23.geotab.com" :=
  get_api_url_idempotent_bare "my23.geotab.com" (by decide) (by decide)
